import Mathlib

/-!
Verification of the attention-block library in `src/models/modules.py`
(non-local blocks, cross non-local block, patch-wise non-local block,
squeeze-and-excitation layer, GCM_up fusion, ASM fusion).

The embedding has two levels, both translated directly from the source:

* a *shape level*: every tensor operation used by the code is given its
  shape semantics as an `Option`-valued function on shapes, `none`
  modelling the runtime error the framework raises on a shape mismatch
  (view with incompatible element counts, max-pooling a window larger
  than the input, channel-count mismatches of 1x1 convolutions and
  linear layers, batch-norm's training-mode requirement of more than one
  value per channel, concatenation of incompatible shapes, ...);

* a *value level* over `ℚ`: each forward computation as a total function
  on (batch, channel, row, column)-indexed rational tensors.  The only
  two irrational ingredients of the source, the exponential used by
  softmax / sigmoid and the inverse square root used by batch
  normalization, are passed in as explicit function parameters `e` and
  `ivs`; every theorem that needs them assumes only the properties
  actually used (positivity of `e`, `e 0 = 1`), which hold for the real
  exponential.  All definitions stay computable this way.
-/

/-! ## Shape level: shapes -/

/-- Shape of a 4-dimensional tensor `(batch, channels, height, width)`. -/
@[ext]
structure Shape4 where
  b : ℕ
  c : ℕ
  h : ℕ
  w : ℕ
deriving DecidableEq, Repr

/-- Shape of a 3-dimensional tensor `(batch, n, m)` (flattened views). -/
@[ext]
structure Shape3 where
  b : ℕ
  n : ℕ
  m : ℕ
deriving DecidableEq, Repr

/-- Number of elements of a 4-dimensional shape. -/
def Shape4.numel (s : Shape4) : ℕ := s.b * s.c * s.h * s.w

/-! ## Shape level: primitive tensor operations -/

/-- Shape semantics of `nn.Conv2d(cin, cout, kernel_size=1, stride=1, padding=0)`:
the channel count must match the configured input channels and the spatial
extent must be at least the 1x1 kernel. -/
def conv1x1Shape (cin cout : ℕ) (s : Shape4) : Option Shape4 :=
  if s.c = cin ∧ 1 ≤ s.h ∧ 1 ≤ s.w then some ⟨s.b, cout, s.h, s.w⟩ else none

/-- Shape semantics of `nn.MaxPool2d(kernel_size=(2, 2))`: the spatial extent
must be at least the window, and the output extent is halved (floor). -/
def maxPool2Shape (s : Shape4) : Option Shape4 :=
  if 2 ≤ s.h ∧ 2 ≤ s.w then some ⟨s.b, s.c, s.h / 2, s.w / 2⟩ else none

/-- Shape semantics of `nn.AdaptiveAvgPool2d((p, q))`: both the requested and
the current spatial extents must be positive. -/
def adaptiveAvgPool2dShape (p q : ℕ) (s : Shape4) : Option Shape4 :=
  if 1 ≤ p ∧ 1 ≤ q ∧ 1 ≤ s.h ∧ 1 ≤ s.w then some ⟨s.b, s.c, p, q⟩ else none

/-- Shape semantics of `.view(..., -1)` with one inferred dimension: the
product `known` of the fixed dimensions must be nonzero and divide the total
element count; the result is the inferred dimension. -/
def viewInfer (total known : ℕ) : Option ℕ :=
  if known ≠ 0 ∧ known ∣ total then some (total / known) else none

/-- Shape semantics of `.view`/`.reshape` to a fully explicit target shape:
element counts must agree. -/
def viewNumel (total : ℕ) (target : Shape4) : Option Shape4 :=
  if total = target.numel then some target else none

/-- Shape semantics of batched `torch.matmul` on `(b, n, k)` and `(b, k, m)`:
batch sizes and inner dimensions must agree. -/
def matmul3Shape (a b2 : Shape3) : Option Shape3 :=
  if a.b = b2.b ∧ a.m = b2.n then some ⟨a.b, a.n, b2.m⟩ else none

/-- Shape semantics of `nn.BatchNorm2d(ch)` on the first forward call (the
module is freshly constructed, hence in training mode): the channel count
must match, and training mode requires more than one value per channel. -/
def bnShape (ch : ℕ) (s : Shape4) : Option Shape4 :=
  if s.c = ch ∧ 2 ≤ s.b * s.h * s.w then some s else none

/-- Shape semantics of the residual `W_y + x`: the shapes coincide at every
call site, so elementwise addition requires equality. -/
def addShape (a b2 : Shape4) : Option Shape4 :=
  if a = b2 then some a else none

/-- Shape semantics of `nn.Unfold(kernel_size=(k, k), stride=(k, k))` on a
`(b, c, h, w)` input: the kernel must be positive and fit inside the spatial
extent; the output is `(b, c*k*k, L)` with `L` the number of patch positions. -/
def unfoldShape (k : ℕ) (s : Shape4) : Option Shape3 :=
  if 1 ≤ k ∧ k ≤ s.h ∧ k ≤ s.w then
    some ⟨s.b, s.c * (k * k), ((s.h - k) / k + 1) * ((s.w - k) / k + 1)⟩
  else none

/-- Shape semantics of `torch.index_select(x, 3, index_i)` with a single
index: the index must be in range for the last dimension. -/
def indexSelectLastShape (s : Shape4) (i : ℕ) : Option Shape4 :=
  if i < s.w then some ⟨s.b, s.c, s.h, 1⟩ else none

/-- Shape semantics of `torch.cat(_, dim=3)`: all dimensions but the last
must agree; the last dimensions add. -/
def catLastShape (a b2 : Shape4) : Option Shape4 :=
  if a.b = b2.b ∧ a.c = b2.c ∧ a.h = b2.h then
    some ⟨a.b, a.c, a.h, a.w + b2.w⟩
  else none

/-- Shape semantics of `torch.cat((p1, p2, p3), dim=1)`: batch and spatial
dimensions must agree pairwise; channel counts add. -/
def cat3ChShape (p1 p2 p3 : Shape4) : Option Shape4 :=
  if p1.b = p2.b ∧ p1.h = p2.h ∧ p1.w = p2.w ∧
     p2.b = p3.b ∧ p2.h = p3.h ∧ p2.w = p3.w then
    some ⟨p1.b, p1.c + p2.c + p3.c, p1.h, p1.w⟩
  else none

/-- Shape semantics of `nn.Linear(inF, outF)` on a 2-dimensional input
`(batch, features)`: the feature count must match `inF`.  The framework
accepts `outF = 0` and `inF = 0` (zero-width layers build and run). -/
def linearShape (inF outF : ℕ) (p : ℕ × ℕ) : Option (ℕ × ℕ) :=
  if p.2 = inF then some (p.1, outF) else none

/-! ## Shape level: NonLocalBlock -/

/-- Configuration of `NonLocalBlock` after `__init__` resolved the
intermediate channel count. -/
structure NLCfg where
  inC : ℕ
  interC : ℕ
  subSample : Bool
  bnLayer : Bool
deriving DecidableEq, Repr

/-- `NonLocalBlock.__init__(in_channels, inter_channels=None, sub_sample=True,
bn_layer=True)`: when `inter_channels` is not given it defaults to
`in_channels // 2`, bumped to `1` when that rounds to zero. -/
def nonLocalInit (inChannels : ℕ) (interChannels : Option ℕ)
    (subSample bnLayer : Bool) : NLCfg :=
  { inC := inChannels
    interC :=
      match interChannels with
      | some i => i
      | none => if inChannels / 2 = 0 then 1 else inChannels / 2
    subSample := subSample
    bnLayer := bnLayer }

/-- Shape semantics of `NonLocalBlock.forward`, step for step:
`g(x)` (conv, optional max-pool, flatten), `theta(x)` (conv, flatten),
`phi(x)` (conv, optional max-pool, flatten), `f = theta_x @ phi_x`,
softmax (shape preserving), `y = f_div_C @ g_x`, reshape of `y` back to
the input spatial extent, the output projection `W` (conv plus optional
batch norm), and the residual addition `W_y + x`. -/
def nlForwardShape (cfg : NLCfg) (s : Shape4) : Option Shape4 :=
  (conv1x1Shape cfg.inC cfg.interC s).bind fun g0 =>
  (if cfg.subSample then maxPool2Shape g0 else some g0).bind fun g1 =>
  (viewInfer g1.numel (g1.b * cfg.interC)).bind fun M =>
  (conv1x1Shape cfg.inC cfg.interC s).bind fun th0 =>
  (viewInfer th0.numel (th0.b * cfg.interC)).bind fun N =>
  (conv1x1Shape cfg.inC cfg.interC s).bind fun ph0 =>
  (if cfg.subSample then maxPool2Shape ph0 else some ph0).bind fun ph1 =>
  (viewInfer ph1.numel (ph1.b * cfg.interC)).bind fun M2 =>
  (matmul3Shape ⟨th0.b, N, cfg.interC⟩ ⟨ph1.b, cfg.interC, M2⟩).bind fun f =>
  (matmul3Shape f ⟨g1.b, M, cfg.interC⟩).bind fun y =>
  (viewNumel (y.b * y.n * y.m) ⟨s.b, cfg.interC, s.h, s.w⟩).bind fun y4 =>
  (conv1x1Shape cfg.interC cfg.inC y4).bind fun w0 =>
  (if cfg.bnLayer then bnShape cfg.inC w0 else some w0).bind fun w1 =>
  addShape w1 s

/-! ## Shape level: NonLocalBlock_PatchWise -/

/-- Configuration of `NonLocalBlock_PatchWise` after `__init__`:
`patch_width = patch_height = stride = int(8 / patch_factor)`, an unfold with
that kernel and stride, a bottleneck convolution (unused in `forward`), one
shared `NonLocalBlock(in_channel)`, and adaptive pools (the post one unused). -/
structure PWCfg where
  inC : ℕ
  interC : ℕ
  patchK : ℕ
  nl : NLCfg
deriving DecidableEq, Repr

/-- `NonLocalBlock_PatchWise.__init__(in_channel, inter_channel, patch_factor)`. -/
def patchWiseInit (inChannel interChannel patchFactor : ℕ) : PWCfg :=
  { inC := inChannel
    interC := interChannel
    patchK := 8 / patchFactor
    nl := nonLocalInit inChannel none true true }

/-- Shape accumulation of the per-patch loop of
`NonLocalBlock_PatchWise.forward`: the accumulator starts as the empty
tensor `torch.tensor([])` (inner `none`), the first `torch.cat` along
dimension 3 adopts the first patch result, and every later one
concatenates along dimension 3.  The outer `Option` is a runtime error. -/
def patchLoopShape (step : ℕ → Option Shape4) : ℕ → Option (Option Shape4)
  | 0 => some none
  | n + 1 =>
    (patchLoopShape step n).bind fun acc =>
    (step n).bind fun t =>
      match acc with
      | none => some (some t)
      | some a => (catLastShape a t).map some

/-- The integer square root, standing for Python's
`int(d ** 0.5)` (they agree on the perfect squares arising here):
the number of positive `m` with `m * m ≤ n`. -/
def intSqrt (n : ℕ) : ℕ :=
  ((Finset.range (n + 1)).filter (fun m => (m + 1) * (m + 1) ≤ n)).card

/-- Shape semantics of `NonLocalBlock_PatchWise.forward`, step for step:
`x_up = self.adp(x)` (whose result is immediately overwritten, but which
still runs), `x_up = self.unfold(x)` applied to the *raw* input `x`,
`x_up.view(batch, -1, in_channel, p_size)`, then for each `i < p_size`
`index_select` / `view(batch, -1, in_channel)` /
`reshape(batch, in_channel, patch_width, patch_width)` with
`patch_width = int(divide.size(1) ** 0.5)` / the shared `NonLocalBlock` /
`view(batch, -1, in_channel, 1)`, concatenated along dimension 3, and the
final `view(batch, in_channel, 8, 8)` (an empty accumulator cannot satisfy
the final view's element count, so it is an error as well). -/
def patchWiseForwardShape (cfg : PWCfg) (s : Shape4) : Option Shape4 :=
  (adaptiveAvgPool2dShape 8 8 s).bind fun _pooled =>
  (unfoldShape cfg.patchK s).bind fun u =>
  (viewInfer (u.b * u.n * u.m) (u.b * cfg.inC * u.m)).bind fun d2 =>
  (patchLoopShape (fun i =>
      (indexSelectLastShape ⟨u.b, d2, cfg.inC, u.m⟩ i).bind fun sel =>
      (viewInfer sel.numel (sel.b * cfg.inC)).bind fun d3 =>
      (viewNumel sel.numel ⟨sel.b, cfg.inC, intSqrt d3, intSqrt d3⟩).bind
        fun div4 =>
      (nlForwardShape cfg.nl div4).bind fun att =>
      (viewInfer att.numel (att.b * cfg.inC * 1)).bind fun d4 =>
      some ⟨att.b, d4, cfg.inC, 1⟩) u.m).bind fun acc =>
  match acc with
  | none => none
  | some a => viewNumel a.numel ⟨u.b, cfg.inC, 8, 8⟩

/-! ## Shape level: SELayer, GCM_up -/

/-- Configuration of `SELayer`: channel count and reduction ratio.
`__init__` has no validation; `channel // reduction` may round to zero and
the zero-width linear layers still construct. -/
structure SECfg where
  channel : ℕ
  reduction : ℕ
deriving DecidableEq, Repr

/-- `SELayer.__init__(channel, reduction=16)`. -/
def seInit (channel reduction : ℕ) : SECfg := ⟨channel, reduction⟩

/-- Shape semantics of `SELayer.forward`: global average pool to 1x1,
`view(b, c)`, `Linear(channel, channel // reduction)`, ReLU,
`Linear(channel // reduction, channel)`, sigmoid, `view(b, c, 1, 1)`,
and `x * y.expand_as(x)`. -/
def seForwardShape (cfg : SECfg) (s : Shape4) : Option Shape4 :=
  (adaptiveAvgPool2dShape 1 1 s).bind fun y0 =>
  (if y0.numel = s.b * s.c then some (s.b, s.c) else none).bind fun y1 =>
  (linearShape cfg.channel (cfg.channel / cfg.reduction) y1).bind fun y2 =>
  (linearShape (cfg.channel / cfg.reduction) cfg.channel y2).bind fun y3 =>
  (viewNumel (y3.1 * y3.2) ⟨s.b, s.c, 1, 1⟩).bind fun y4 =>
  if y4.b = s.b ∧ y4.c = s.c then some s else none

/-- Configuration of `GCM_up`: two patch-wise blocks at patch factors 2 and
4 over `in_channels`, one `NonLocalBlock(256, 64)`, an `SELayer(3*256)`,
and a 1x1 convolution `3*256 -> out_channels`. -/
structure GCMCfg where
  patch1 : PWCfg
  patch2 : PWCfg
  patch3 : NLCfg
  se : SECfg
  convIn : ℕ
  convOut : ℕ
deriving DecidableEq, Repr

/-- `GCM_up.__init__(in_channels, out_channels)`. -/
def gcmUpInit (inChannels outChannels : ℕ) : GCMCfg :=
  { patch1 := patchWiseInit inChannels outChannels 2
    patch2 := patchWiseInit inChannels outChannels 4
    patch3 := nonLocalInit 256 (some 64) true true
    se := seInit (3 * 256) 16
    convIn := 3 * 256
    convOut := outChannels }

/-- Shape semantics of `GCM_up.forward`: adaptive pool to 8x8, the three
parallel attention paths, `torch.cat(..., dim=1)`, `SELayer`, 1x1
convolution (ReLU preserves the shape), and the final adaptive pool back
to the recorded input extent `(h, w)`. -/
def gcmUpForwardShape (cfg : GCMCfg) (s : Shape4) : Option Shape4 :=
  (adaptiveAvgPool2dShape 8 8 s).bind fun x8 =>
  (patchWiseForwardShape cfg.patch1 x8).bind fun p1 =>
  (patchWiseForwardShape cfg.patch2 x8).bind fun p2 =>
  (nlForwardShape cfg.patch3 x8).bind fun p3 =>
  (cat3ChShape p1 p2 p3).bind fun gcat =>
  (seForwardShape cfg.se gcat).bind fun f1 =>
  (conv1x1Shape cfg.convIn cfg.convOut f1).bind fun c1 =>
  adaptiveAvgPool2dShape s.h s.w c1

/-! ## Value level: tensors and primitive operations -/

/-- A 4-dimensional rational tensor, indexed `(batch, channel, row, column)`.
Total functions; a computation of shape `(b, c, h, w)` only ever reads
indices below those bounds. -/
abbrev T4 := ℕ → ℕ → ℕ → ℕ → ℚ

/-- A 3-dimensional rational tensor. -/
abbrev T3q := ℕ → ℕ → ℕ → ℚ

/-- A 3-dimensional boolean tensor (a mask). -/
abbrev T3b := ℕ → ℕ → ℕ → Bool

/-- Value semantics of `nn.Conv2d(cin, cout, 1, 1, 0)` with weight `wgt`
(output channel, input channel) and bias `bias`: a per-position linear map
over the `cin` input channels. -/
def conv1x1 (cin : ℕ) (wgt : ℕ → ℕ → ℚ) (bias : ℕ → ℚ) (x : T4) : T4 :=
  fun i c yy xx => (∑ j ∈ Finset.range cin, wgt c j * x i j yy xx) + bias c

/-- Value semantics of `nn.MaxPool2d(kernel_size=(2, 2))`: the maximum of
each non-overlapping 2x2 window. -/
def maxPool2x2 (x : T4) : T4 :=
  fun i c yy xx =>
    max (max (x i c (2 * yy) (2 * xx)) (x i c (2 * yy) (2 * xx + 1)))
        (max (x i c (2 * yy + 1) (2 * xx)) (x i c (2 * yy + 1) (2 * xx + 1)))

/-- Value semantics of `nn.BatchNorm2d` on the first forward call (training
mode, so batch statistics): per channel, subtract the mean over batch and
spatial positions and multiply by the inverse square root of the biased
variance (passed in as `ivs`, standing for `x ↦ 1 / sqrt (x + eps)`), then
apply the affine parameters `gamma` and `beta`. -/
def batchNorm2dTrain (gamma beta : ℕ → ℚ) (ivs : ℚ → ℚ) (b h w : ℕ)
    (x : T4) : T4 :=
  fun i c yy xx =>
    let n : ℚ := ((b * h * w : ℕ) : ℚ)
    let mu : ℚ :=
      (∑ i2 ∈ Finset.range b, ∑ y2 ∈ Finset.range h, ∑ x2 ∈ Finset.range w,
        x i2 c y2 x2) / n
    let vr : ℚ :=
      (∑ i2 ∈ Finset.range b, ∑ y2 ∈ Finset.range h, ∑ x2 ∈ Finset.range w,
        (x i2 c y2 x2 - mu) ^ 2) / n
    gamma c * ((x i c yy xx - mu) * ivs vr) + beta c

/-- Flattening `(b, c, h, w) → (b, c, h*w)` as done by `.view(b, c, -1)` on a
contiguous tensor: position `n` maps to row `n / w`, column `n % w`. -/
def flattenHW (w : ℕ) (t : T4) : T3q :=
  fun i c n => t i c (n / w) (n % w)

/-- `F.softmax(f, dim=-1)` on a `(b, n, m)` tensor whose last dimension has
extent `M`, with `e` standing for the exponential function: entry over the
sum of its row. -/
def softmaxLast (e : ℚ → ℚ) (M : ℕ) (f : T3q) : T3q :=
  fun i a j => e (f i a j) / ∑ j2 ∈ Finset.range M, e (f i a j2)

/-- The sigmoid `1 / (1 + exp (-t))`, with `e` standing for the exponential. -/
def sigmoidQ (e : ℚ → ℚ) (t : ℚ) : ℚ := 1 / (1 + e (-t))

/-- ReLU on rationals. -/
def reluQ (t : ℚ) : ℚ := max t 0

/-! ## Value level: scaled_dot_product -/

/-- Value semantics of `scaled_dot_product(q, k, v, mask=None)` from the
source, step for step: `attn_logits = q @ k.transpose(-2, -1)`, division of
the matrix by `sqrtDk` (standing for `math.sqrt(d_k)` with `d_k` the trailing
feature extent `d`), `masked_fill(mask == 0, -9e15)` when a mask is given,
`F.softmax(_, dim=-1)` over the `m` key positions, `values = attention @ v`,
returning both `values` and `attention`.  A pure function of its inputs. -/
def scaled_dot_product (e : ℚ → ℚ) (sqrtDk : ℚ) (m d : ℕ) (q k v : T3q)
    (mask : Option T3b) : T3q × T3q :=
  let attnLogits0 : T3q := fun i a b2 => ∑ j ∈ Finset.range d, q i a j * k i b2 j
  let attnLogits1 : T3q := fun i a b2 => attnLogits0 i a b2 / sqrtDk
  let attnLogits : T3q :=
    match mask with
    | none => attnLogits1
    | some mk =>
      fun i a b2 =>
        if mk i a b2 = false then (-9000000000000000 : ℚ) else attnLogits1 i a b2
  let attention := softmaxLast e m attnLogits
  let values : T3q := fun i a c => ∑ j ∈ Finset.range m, attention i a j * v i j c
  (values, attention)

/-- From the spec's words (section 4.1): "compute logits = Q·K^T / sqrt(d)";
each logit entry is the dot product of a query row and a key row, divided by
the square root of the trailing feature dimension. -/
def sdpaSpecLogits (sqrtDk : ℚ) (d : ℕ) (q k : T3q) : T3q :=
  fun i a b2 => (∑ j ∈ Finset.range d, q i a j * k i b2 j) / sqrtDk

/-- From the spec's words (section 4.1): "where mask is false, set logit to a
large negative sentinel (effectively −infinity) before normalization". -/
def sdpaSpecMasked (sqrtDk : ℚ) (d : ℕ) (q k : T3q) (mask : Option T3b) : T3q :=
  fun i a b2 =>
    match mask with
    | none => sdpaSpecLogits sqrtDk d q k i a b2
    | some mk =>
      if mk i a b2 then sdpaSpecLogits sqrtDk d q k i a b2
      else (-9000000000000000 : ℚ)

/-- From the spec's words (section 4.1): "apply softmax along the last axis
to get attention weights". -/
def sdpaSpecAttention (e : ℚ → ℚ) (sqrtDk : ℚ) (m d : ℕ) (q k : T3q)
    (mask : Option T3b) : T3q :=
  softmaxLast e m (sdpaSpecMasked sqrtDk d q k mask)

/-- From the spec's words (section 4.1): "return weighted sum of V rows". -/
def sdpaSpecValues (e : ℚ → ℚ) (sqrtDk : ℚ) (m d : ℕ) (q k v : T3q)
    (mask : Option T3b) : T3q :=
  fun i a c =>
    ∑ j ∈ Finset.range m, sdpaSpecAttention e sqrtDk m d q k mask i a j * v i j c

/-! ## Value level: NonLocalBlock -/

/-- The learned parameters of a `NonLocalBlock`: the three projection
convolutions `g`, `theta`, `phi`, the output projection convolution (first
element of `W`), and the batch-norm affine parameters (second element of
`W` when `bn_layer` is set). -/
structure NLParams where
  gWeight : ℕ → ℕ → ℚ
  gBias : ℕ → ℚ
  thetaWeight : ℕ → ℕ → ℚ
  thetaBias : ℕ → ℚ
  phiWeight : ℕ → ℕ → ℚ
  phiBias : ℕ → ℚ
  outWeight : ℕ → ℕ → ℚ
  outBias : ℕ → ℚ
  bnWeight : ℕ → ℚ
  bnBias : ℕ → ℚ

/-- `self.g(x)`: the `g` convolution followed by the 2x2 max-pool when
`sub_sample` is set. -/
def nlG (cfg : NLCfg) (p : NLParams) (x : T4) : T4 :=
  (if cfg.subSample then maxPool2x2 else id) (conv1x1 cfg.inC p.gWeight p.gBias x)

/-- `self.theta(x)`: the `theta` convolution (never pooled). -/
def nlTheta (cfg : NLCfg) (p : NLParams) (x : T4) : T4 :=
  conv1x1 cfg.inC p.thetaWeight p.thetaBias x

/-- `self.phi(x)`: the `phi` convolution followed by the 2x2 max-pool when
`sub_sample` is set. -/
def nlPhi (cfg : NLCfg) (p : NLParams) (x : T4) : T4 :=
  (if cfg.subSample then maxPool2x2 else id) (conv1x1 cfg.inC p.phiWeight p.phiBias x)

/-- The number of key/value positions of `NonLocalBlock.forward` on an
`h` x `w` input: half the extent on each axis when `sub_sample` is set. -/
def nlKeyCount (cfg : NLCfg) (h w : ℕ) : ℕ :=
  (if cfg.subSample then h / 2 else h) * (if cfg.subSample then w / 2 else w)

/-- The attention matrix `f_div_C = F.softmax(theta_x @ phi_x, dim=-1)`
computed inside `NonLocalBlock.forward`: entry `(i, n, m)` for query
position `n` and key position `m`. -/
def nonLocalAttention (cfg : NLCfg) (p : NLParams) (e : ℚ → ℚ) (h w : ℕ)
    (x : T4) : T3q :=
  let kw := if cfg.subSample then w / 2 else w
  let theta3 := flattenHW w (nlTheta cfg p x)
  let phi3 := flattenHW kw (nlPhi cfg p x)
  let f : T3q := fun i n m =>
    ∑ c ∈ Finset.range cfg.interC, theta3 i c n * phi3 i c m
  softmaxLast e (nlKeyCount cfg h w) f

/-- Value semantics of `NonLocalBlock.forward`, step for step: flatten
`g(x)`, compute the attention `f_div_C`, `y = f_div_C @ g_x`, reshape `y`
back to the input spatial extent, the output projection `W` (1x1
convolution, then batch norm when `bn_layer` is set), and the residual
`z = W_y + x`. -/
def nonLocalForward (cfg : NLCfg) (p : NLParams) (e ivs : ℚ → ℚ) (b h w : ℕ)
    (x : T4) : T4 :=
  let kw := if cfg.subSample then w / 2 else w
  let M := nlKeyCount cfg h w
  let g3 := flattenHW kw (nlG cfg p x)
  let att := nonLocalAttention cfg p e h w x
  let y : T3q := fun i n c => ∑ m ∈ Finset.range M, att i n m * g3 i c m
  let y4 : T4 := fun i c yy xx => y i (yy * w + xx) c
  let wy0 := conv1x1 cfg.interC p.outWeight p.outBias y4
  let wy := if cfg.bnLayer then batchNorm2dTrain p.bnWeight p.bnBias ivs b h w wy0
            else wy0
  fun i c yy xx => wy i c yy xx + x i c yy xx

/-! ## Value level: CrossNonLocalBlock -/

/-- Configuration of `CrossNonLocalBlock`: source channels, target channels,
intermediate channels (mandatory here), `sub_sample` (default `False`) and
`bn_layer` (default `True`). -/
structure CrossCfg where
  inCS : ℕ
  inCT : ℕ
  interC : ℕ
  subSample : Bool
  bnLayer : Bool
deriving DecidableEq, Repr

/-- The learned parameters of a `CrossNonLocalBlock`: `g` and `theta`
project the source, `phi` projects the target, `W` projects back to the
target channel count (convolution plus batch-norm affine parameters). -/
structure CrossParams where
  gWeight : ℕ → ℕ → ℚ
  gBias : ℕ → ℚ
  thetaWeight : ℕ → ℕ → ℚ
  thetaBias : ℕ → ℚ
  phiWeight : ℕ → ℕ → ℚ
  phiBias : ℕ → ℚ
  outWeight : ℕ → ℕ → ℚ
  outBias : ℕ → ℚ
  bnWeight : ℕ → ℚ
  bnBias : ℕ → ℚ

/-- The weight matrix `f_div_C.permute(0, 2, 1)` that
`CrossNonLocalBlock.forward` multiplies with `g_x` (the projected source):
`f = theta_x @ phi_x` has rows indexed by source positions and columns by
target positions, `F.softmax(f, dim=-1)` normalizes along the *last* axis
(target positions), and the permute transposes the result, so entry
`(i, t, s)` is the softmax (over targets) value at source `s`, target `t`. -/
def crossAppliedWeights (cfg : CrossCfg) (p : CrossParams) (e : ℚ → ℚ)
    (ws ht wt : ℕ) (x l : T4) : T3q :=
  let kht := if cfg.subSample then ht / 2 else ht
  let kwt := if cfg.subSample then wt / 2 else wt
  let theta3 := flattenHW ws (conv1x1 cfg.inCS p.thetaWeight p.thetaBias x)
  let phi3 := flattenHW kwt
    ((if cfg.subSample then maxPool2x2 else id)
      (conv1x1 cfg.inCT p.phiWeight p.phiBias l))
  let f : T3q := fun i s t =>
    ∑ c ∈ Finset.range cfg.interC, theta3 i c s * phi3 i c t
  let fDivC := softmaxLast e (kht * kwt) f
  fun i t s => fDivC i s t

/-- Value semantics of `CrossNonLocalBlock.forward(x, l)` (source `x`,
target `l`), step for step: flatten `g(x)`, the transposed softmax weights,
`y = f_div_C.permute(0,2,1) @ g_x`, reshape of `y` to the *target* spatial
extent, the output projection `W` (1x1 convolution to the target channel
count plus batch norm), and the residual `z = W_y + l` added to the target. -/
def crossForward (cfg : CrossCfg) (p : CrossParams) (e ivs : ℚ → ℚ)
    (b hs ws ht wt : ℕ) (x l : T4) : T4 :=
  let khs := if cfg.subSample then hs / 2 else hs
  let kws := if cfg.subSample then ws / 2 else ws
  let g3 := flattenHW kws
    ((if cfg.subSample then maxPool2x2 else id)
      (conv1x1 cfg.inCS p.gWeight p.gBias x))
  let att := crossAppliedWeights cfg p e ws ht wt x l
  let y : T3q := fun i t c => ∑ s ∈ Finset.range (khs * kws), att i t s * g3 i c s
  let y4 : T4 := fun i c yy xx => y i (yy * wt + xx) c
  let wy0 := conv1x1 cfg.interC p.outWeight p.outBias y4
  let wy := if cfg.bnLayer then batchNorm2dTrain p.bnWeight p.bnBias ivs b ht wt wy0
            else wy0
  fun i c yy xx => wy i c yy xx + l i c yy xx

/-! ## Value level: SELayer -/

/-- Value semantics of `SELayer.forward`: global average pool over the
spatial extent, the bias-free bottleneck `Linear(channel, channel //
reduction)` / ReLU / `Linear(channel // reduction, channel)` / sigmoid, and
the elementwise rescaling `x * y.expand_as(x)`.  `w1` and `w2` are the two
linear layers' weights (output feature, input feature). -/
def seForward (channel reduction : ℕ) (w1 w2 : ℕ → ℕ → ℚ) (e : ℚ → ℚ)
    (h w : ℕ) (x : T4) : T4 :=
  let avg : ℕ → ℕ → ℚ := fun i c =>
    (∑ y2 ∈ Finset.range h, ∑ x2 ∈ Finset.range w, x i c y2 x2)
      / ((h * w : ℕ) : ℚ)
  let mid : ℕ → ℕ → ℚ := fun i j =>
    reluQ (∑ c ∈ Finset.range channel, w1 j c * avg i c)
  let gate : ℕ → ℕ → ℚ := fun i c =>
    sigmoidQ e (∑ j ∈ Finset.range (channel / reduction), w2 c j * mid i j)
  fun i c yy xx => x i c yy xx * gate i c

/-! ## Value level: ASM -/

/-- The state `ASM.__init__(in_channels, all_channels)` builds: only
`self.non_local = NonLocalBlock(in_channels)` is stored; the
`all_channels` argument is read by no statement of the constructor. -/
structure ASMCfg where
  nl : NLCfg
deriving DecidableEq, Repr

/-- `ASM.__init__(in_channels, all_channels)`. -/
def asmInit (inChannels _allChannels : ℕ) : ASMCfg :=
  ⟨nonLocalInit inChannels none true true⟩

/-- `torch.cat` of two tensors along the channel dimension, the first having
`c1` channels. -/
def catChannels (c1 : ℕ) (t u : T4) : T4 :=
  fun i c yy xx => if c < c1 then t i c yy xx else u i (c - c1) yy xx

/-- Value semantics of `ASM.forward(lc, fuse, gc)`: apply the stored
`NonLocalBlock` to `fuse`, then `torch.cat([lc, fuse, gc], dim=1)` (here as
two nested channel concatenations, `lc` having `cLc` channels and the
attended `fuse` having the block's `in_channels`). -/
def asmForward (cfg : ASMCfg) (p : NLParams) (e ivs : ℚ → ℚ)
    (b h w cLc : ℕ) (lc fuse gc : T4) : T4 :=
  let fuse2 := nonLocalForward cfg.nl p e ivs b h w fuse
  catChannels cLc lc (catChannels cfg.nl.inC fuse2 gc)

/-! ## Helper lemmas -/

/-- Each row of a softmax sums to 1, for any row extent `M ≥ 1` and any
pointwise-positive exponential stand-in `e`. -/
lemma softmaxLast_row_sum (e : ℚ → ℚ) (M : ℕ) (f : T3q)
    (he : ∀ t, 0 < e t) (hM : 1 ≤ M) (i a : ℕ) :
    ∑ j ∈ Finset.range M, softmaxLast e M f i a j = 1 := by
  have hS : 0 < ∑ j2 ∈ Finset.range M, e (f i a j2) :=
    Finset.sum_pos (fun j _ => he _) (Finset.nonempty_range_iff.mpr (by omega))
  unfold softmaxLast
  rw [← Finset.sum_div, div_self hS.ne']

/-! ## Claims about scaled_dot_product -/

/-- C6: for all query `q`, key `k`, value `v` with trailing feature
dimension `d` and optional mask, `scaled_dot_product` computes logits
`q @ k.transpose / sqrt(d)`, replaces logits at positions where the mask is
`0` (false) with the large negative sentinel `-9e15` before softmax,
applies softmax along the last axis, and returns both `attention @ v` and
the attention weight matrix itself: it coincides with the pipeline spelled
out by the spec (sections 4.1), and, being a function of its arguments, it
has no side effects. -/
theorem claim_C6 (e : ℚ → ℚ) (sqrtDk : ℚ) (m d : ℕ) (q k v : T3q)
    (mask : Option T3b) :
    scaled_dot_product e sqrtDk m d q k v mask =
      (sdpaSpecValues e sqrtDk m d q k v mask,
       sdpaSpecAttention e sqrtDk m d q k mask) := by
  have hlog :
      (match mask with
        | none => fun i a b2 => (∑ j ∈ Finset.range d, q i a j * k i b2 j) / sqrtDk
        | some mk =>
          fun i a b2 =>
            if mk i a b2 = false then (-9000000000000000 : ℚ)
            else (∑ j ∈ Finset.range d, q i a j * k i b2 j) / sqrtDk) =
      sdpaSpecMasked sqrtDk d q k mask := by
    cases mask with
    | none => rfl
    | some mk =>
      funext i a b2
      unfold sdpaSpecMasked sdpaSpecLogits
      cases hmk : mk i a b2 <;> simp [hmk]
  unfold scaled_dot_product sdpaSpecValues sdpaSpecAttention
  simp only [hlog]

/-- C5: for every input, each row of the softmax-normalized attention
weight matrix produced inside `scaled_dot_product` and inside
`NonLocalBlock.forward` sums to 1 (normalization along the key axis, the
last axis of the logits), for any pointwise-positive exponential stand-in
and at least one key position. -/
theorem claim_C5 (e : ℚ → ℚ) (sqrtDk : ℚ) (m d : ℕ) (q k v : T3q)
    (mask : Option T3b) (cfg : NLCfg) (p : NLParams) (h w : ℕ) (x : T4)
    (he : ∀ t, 0 < e t) (hm : 1 ≤ m) (hM : 1 ≤ nlKeyCount cfg h w) :
    (∀ i a, ∑ j ∈ Finset.range m,
        (scaled_dot_product e sqrtDk m d q k v mask).2 i a j = 1) ∧
    (∀ i a, ∑ j ∈ Finset.range (nlKeyCount cfg h w),
        nonLocalAttention cfg p e h w x i a j = 1) := by
  constructor
  · intro i a
    unfold scaled_dot_product
    exact softmaxLast_row_sum e m _ he hm i a
  · intro i a
    unfold nonLocalAttention
    exact softmaxLast_row_sum e (nlKeyCount cfg h w) _ he hM i a

/-- C5 witness: at a concrete configuration (one key position on each side,
exponential stand-in constantly 1, sub-sampled 2x2 spatial extent), the
first attention row of `scaled_dot_product` sums to 1. -/
theorem claim_C5_witness :
    ∑ j ∈ Finset.range 1,
      (scaled_dot_product (fun _ => 1) 1 1 1 (fun _ _ _ => 0) (fun _ _ _ => 0)
        (fun _ _ _ => 0) none).2 0 0 j = 1 :=
  (claim_C5 (fun _ => 1) 1 1 1 (fun _ _ _ => 0) (fun _ _ _ => 0)
    (fun _ _ _ => 0) none ⟨2, 1, true, true⟩
    ⟨fun _ _ => 0, fun _ => 0, fun _ _ => 0, fun _ => 0, fun _ _ => 0,
     fun _ => 0, fun _ _ => 0, fun _ => 0, fun _ => 0, fun _ => 0⟩
    2 2 (fun _ _ _ _ => 0) (fun _ => one_pos) (by decide) (by decide)).1 0 0

/-! ## Claims about NonLocalBlock (value level) -/

/-- C4: for every input `x`, a freshly constructed `NonLocalBlock` whose
output-projection batch-norm affine parameters are at their zero
initialization (`nn.init.constant_(self.W[1].weight, 0)` and
`nn.init.constant_(self.W[1].bias, 0)`) returns output exactly equal to
`x` on the first forward call: the projection branch contributes zero and
only the residual remains.  This holds for every exponential stand-in,
every inverse-square-root stand-in and all remaining parameters. -/
theorem claim_C4 (cfg : NLCfg) (p : NLParams) (e ivs : ℚ → ℚ) (b h w : ℕ)
    (x : T4) (hbn : cfg.bnLayer = true) (hg : ∀ c, p.bnWeight c = 0)
    (hb : ∀ c, p.bnBias c = 0) :
    nonLocalForward cfg p e ivs b h w x = x := by
  funext i c yy xx
  simp only [nonLocalForward, hbn, if_true]
  simp [batchNorm2dTrain, hg, hb]

/-- C4 witness: a concrete zero-initialized block on a concrete input is the
identity on that input. -/
theorem claim_C4_witness :
    nonLocalForward ⟨4, 2, true, true⟩
      ⟨fun _ _ => 1, fun _ => 1, fun _ _ => 1, fun _ => 1, fun _ _ => 1,
       fun _ => 1, fun _ _ => 1, fun _ => 1, fun _ => 0, fun _ => 0⟩
      (fun _ => 1) (fun _ => 1) 1 2 2 (fun _ _ _ _ => 5) =
      (fun _ _ _ _ => 5) :=
  claim_C4 ⟨4, 2, true, true⟩
    ⟨fun _ _ => 1, fun _ => 1, fun _ _ => 1, fun _ => 1, fun _ _ => 1,
     fun _ => 1, fun _ _ => 1, fun _ => 1, fun _ => 0, fun _ => 0⟩
    (fun _ => 1) (fun _ => 1) 1 2 2 (fun _ _ _ _ => 5) rfl
    (fun _ => rfl) (fun _ => rfl)

/-! ## Claim about ASM -/

/-- C10: two `ASM` instances constructed with the same `in_channels` but
different `all_channels` values, with identical internal `NonLocalBlock`
parameters, produce identical outputs on every `(lc, fuse, gc)` input:
`ASM.__init__` stores only `NonLocalBlock(in_channels)`, so the
`all_channels` argument has no effect on `forward`. -/
theorem claim_C10 (inCh a1 a2 : ℕ) (p : NLParams) (e ivs : ℚ → ℚ)
    (b h w cLc : ℕ) (lc fuse gc : T4) :
    asmForward (asmInit inCh a1) p e ivs b h w cLc lc fuse gc =
      asmForward (asmInit inCh a2) p e ivs b h w cLc lc fuse gc := rfl

/-! ## Claims about CrossNonLocalBlock -/

/-- C1 counterexample: with one target position and two source positions
(source spatial extent 2x1, target 1x1, all channel counts 1, weights 1,
biases 0, zero inputs, exponential stand-in constantly 1 — on a
single-column softmax every weight is exactly 1 for *any* exponential), the
weights applied to `g(source)` for target position 0 sum over the source
positions to 2, not 1: the softmax in `CrossNonLocalBlock.forward` runs
along the target axis before the transpose, so the transposed matrix is not
normalized along the source axis. -/
theorem claim_C1_counterexample :
    ∑ s2 ∈ Finset.range 2,
      crossAppliedWeights ⟨1, 1, 1, false, true⟩
        ⟨fun _ _ => 1, fun _ => 0, fun _ _ => 1, fun _ => 0, fun _ _ => 1,
         fun _ => 0, fun _ _ => 0, fun _ => 0, fun _ => 0, fun _ => 0⟩
        (fun _ => 1) 1 1 1 (fun _ _ _ _ => 0) (fun _ _ _ _ => 0) 0 0 s2 = 2 := by
  simp [crossAppliedWeights, softmaxLast, flattenHW, conv1x1,
    Finset.sum_range_succ]

/-- C1 (amended): in `CrossNonLocalBlock.forward` the softmax normalizes
the logits `theta(source) @ phi(target)` along the TARGET axis (their last
axis) before the weight matrix is transposed; hence, in the transposed
matrix applied to `g(source)`, for every SOURCE position the weights over
all target positions sum to 1 (for every target position the weights over
source positions need not sum to 1). -/
theorem claim_C1 (cfg : CrossCfg) (p : CrossParams) (e : ℚ → ℚ)
    (ws ht wt : ℕ) (x l : T4) (hsub : cfg.subSample = false)
    (he : ∀ t, 0 < e t) (hNt : 1 ≤ ht * wt) (i s : ℕ) :
    ∑ t ∈ Finset.range (ht * wt),
      crossAppliedWeights cfg p e ws ht wt x l i t s = 1 := by
  unfold crossAppliedWeights
  simp only [hsub, Bool.false_eq_true, if_false]
  exact softmaxLast_row_sum e (ht * wt) _ he hNt i s

/-- C1 witness: the amended normalization at a concrete configuration:
for source position 0, the weights over the two target positions of a 1x2
target sum to 1. -/
theorem claim_C1_witness :
    ∑ t ∈ Finset.range (1 * 2),
      crossAppliedWeights ⟨1, 1, 1, false, true⟩
        ⟨fun _ _ => 1, fun _ => 0, fun _ _ => 1, fun _ => 0, fun _ _ => 1,
         fun _ => 0, fun _ _ => 0, fun _ => 0, fun _ => 0, fun _ => 0⟩
        (fun _ => 1) 1 1 2 (fun _ _ _ _ => 0) (fun _ _ _ _ => 0) 0 t 0 = 1 :=
  claim_C1 ⟨1, 1, 1, false, true⟩
    ⟨fun _ _ => 1, fun _ => 0, fun _ _ => 1, fun _ => 0, fun _ _ => 1,
     fun _ => 0, fun _ _ => 0, fun _ => 0, fun _ => 0, fun _ => 0⟩
    (fun _ => 1) 1 1 2 (fun _ _ _ _ => 0) (fun _ _ _ _ => 0) rfl
    (fun _ => one_pos) (by decide) 0 0

/-! ## Claims about SELayer -/

/-- C7 counterexample: constructing `SELayer(channel=8, reduction=16)`,
where `channel // reduction = 0`, does NOT fail: `__init__` has no
validation (the framework accepts zero-width linear layers), and the first
forward call on a `(2, 8, 4, 4)` input runs to completion with the input's
shape, instead of raising a configuration error. -/
theorem claim_C7_counterexample :
    seForwardShape (seInit 8 16) ⟨2, 8, 4, 4⟩ = some ⟨2, 8, 4, 4⟩ := by
  decide

/-- Helper: `SELayer.forward` preserves any shape whose channel count
matches the configured `channel` (whatever the reduction ratio, including
a zero-width bottleneck). -/
lemma seForwardShape_ok (cfg : SECfg) (s : Shape4) (hc : s.c = cfg.channel)
    (hh : 1 ≤ s.h) (hw : 1 ≤ s.w) : seForwardShape cfg s = some s := by
  unfold seForwardShape
  rw [adaptiveAvgPool2dShape, if_pos ⟨le_refl 1, le_refl 1, hh, hw⟩]
  have h1 : (Shape4.mk s.b s.c 1 1).numel = s.b * s.c := by
    simp [Shape4.numel]
  rw [Option.some_bind, h1, if_pos rfl, Option.some_bind]
  rw [linearShape, if_pos hc, Option.some_bind]
  rw [linearShape, if_pos rfl, Option.some_bind]
  rw [viewNumel, if_pos (by simp [Shape4.numel, hc]), Option.some_bind]
  exact if_pos ⟨rfl, rfl⟩

/-- C7 (amended): constructing an `SELayer` with channel count `C` and
reduction ratio `r` such that `C // r` rounds down to zero channels does
NOT fail: construction and the first forward call succeed (shape
preserved), and the layer silently produces the degenerate bottleneck
output `x * sigmoid 0 = x * (1/2)` — the empty bottleneck makes the
pre-sigmoid activation 0 for every channel (using `e 0 = 1`, true of the
real exponential). -/
theorem claim_C7 (ch red : ℕ) (w1 w2 : ℕ → ℕ → ℚ) (e : ℚ → ℚ) (h w : ℕ)
    (x : T4) (s : Shape4) (h0 : ch / red = 0) (he : e 0 = 1)
    (hc : s.c = ch) (hh : 1 ≤ s.h) (hw : 1 ≤ s.w) :
    seForwardShape (seInit ch red) s = some s ∧
    seForward ch red w1 w2 e h w x =
      fun i c yy xx => x i c yy xx * (1 / 2) := by
  constructor
  · exact seForwardShape_ok (seInit ch red) s hc hh hw
  · funext i c yy xx
    simp only [seForward, h0, Finset.range_zero, Finset.sum_empty, sigmoidQ,
      neg_zero, he]
    norm_num

/-- C7 witness: `SELayer(8, 16)` (so `8 // 16 = 0`) with zero bottleneck
weights and the constant-1 exponential stand-in maps the constant-3 input
to the constant-3/2 output, silently, instead of raising. -/
theorem claim_C7_witness :
    seForward 8 16 (fun _ _ => 0) (fun _ _ => 0) (fun _ => 1) 2 2
      (fun _ _ _ _ => 3) =
      fun i c yy xx => (fun _ _ _ _ => (3 : ℚ)) i c yy xx * (1 / 2) :=
  (claim_C7 8 16 (fun _ _ => 0) (fun _ _ => 0) (fun _ => 1) 2 2
    (fun _ _ _ _ => 3) ⟨1, 8, 2, 2⟩ (by decide) rfl rfl (by decide)
    (by decide)).2

/-! ## Claims about NonLocalBlock (shape level) -/

/-- C3: for every input shape `(B, C, H, W)` accepted by a `NonLocalBlock`
(i.e. on which `forward` runs without a shape error, including with
`sub_sample` enabled), the output shape equals the input shape: the final
residual addition `W_y + x` forces the projected attention output back to
the input's shape. -/
theorem claim_C3 (cfg : NLCfg) (s t : Shape4)
    (hrun : nlForwardShape cfg s = some t) : t = s := by
  unfold nlForwardShape at hrun
  simp only [Option.bind_eq_some] at hrun
  obtain ⟨g0, -, g1, -, M, -, th0, -, N, -, ph0, -, ph1, -, M2, -, f, -, y, -,
    y4, -, w0, -, w1, -, hadd⟩ := hrun
  unfold addShape at hadd
  split_ifs at hadd with hws
  cases hadd
  exact hws

/-- C3 witness: the spec's concrete scenario: a sub-sampled
`NonLocalBlock(in_channels=64)` accepts a `(2, 64, 16, 16)` input (keys
at 8x8, queries at 16x16) and returns the input shape. -/
theorem claim_C3_witness : (Shape4.mk 2 64 16 16) = ⟨2, 64, 16, 16⟩ :=
  claim_C3 (nonLocalInit 64 none true true) ⟨2, 64, 16, 16⟩ ⟨2, 64, 16, 16⟩
    (by decide)

/-! ## Claim about NonLocalBlock_PatchWise pooling (code bug) -/

/-- C2: the claim says the input is first adaptively pooled to 8x8 and that
the POOLED map is partitioned into patches.  In the source, the pooled
result `x_up = self.adp(x)` is immediately overwritten by
`x_up = self.unfold(x)`, which unfolds the RAW input; on any input whose
spatial extent is not 8x8 — here `(1, 4, 16, 16)` with `patch_factor = 2` —
the raw 16x16 input yields 16 patches instead of 4 and the final
`view(batch, in_channel, 8, 8)` fails (1024·C elements versus 64·C),
whereas partitioning the pooled 8x8 map would succeed.  This theorem
evaluates the code at that failing input. -/
theorem claim_C2 :
    patchWiseForwardShape (patchWiseInit 4 4 2) ⟨1, 4, 16, 16⟩ = none := by
  decide

/-! ## Positive-direction shape helpers -/

/-- A 1x1 convolution with matching channel count succeeds. -/
lemma conv1x1Shape_pos (cin cout : ℕ) (s : Shape4) (h1 : s.c = cin)
    (h2 : 1 ≤ s.h) (h3 : 1 ≤ s.w) :
    conv1x1Shape cin cout s = some ⟨s.b, cout, s.h, s.w⟩ :=
  if_pos ⟨h1, h2, h3⟩

/-- A 2x2 max-pool on an at-least-2x2 extent succeeds. -/
lemma maxPool2Shape_pos (s : Shape4) (h1 : 2 ≤ s.h) (h2 : 2 ≤ s.w) :
    maxPool2Shape s = some ⟨s.b, s.c, s.h / 2, s.w / 2⟩ :=
  if_pos ⟨h1, h2⟩

/-- A view with one inferred dimension on an exactly divisible element
count returns the cofactor. -/
lemma viewInfer_cancel (a q : ℕ) (ha : a ≠ 0) : viewInfer (a * q) a = some q := by
  unfold viewInfer
  rw [if_pos ⟨ha, Dvd.intro q rfl⟩, Nat.mul_div_cancel_left q
    (Nat.pos_of_ne_zero ha)]

/-- A fully explicit view with matching element count succeeds. -/
lemma viewNumel_pos (total : ℕ) (target : Shape4) (h : total = target.numel) :
    viewNumel total target = some target :=
  if_pos h

/-- Helper: a sub-sampled `NonLocalBlock` with `bn_layer` on positive batch
size, positive intermediate channels, matching input channels and spatial
extent at least 2x2 runs, and it preserves the input shape. -/
lemma nlForwardShape_ok (ic itc b h w : ℕ) (hb : 1 ≤ b) (hi : 1 ≤ itc)
    (hh : 2 ≤ h) (hw : 2 ≤ w) :
    nlForwardShape ⟨ic, itc, true, true⟩ ⟨b, ic, h, w⟩ = some ⟨b, ic, h, w⟩ := by
  have hbi : b * itc ≠ 0 := by positivity
  have hbhw : 2 ≤ b * h * w := by
    calc 2 ≤ h := hh
    _ = 1 * h * 1 := by ring
    _ ≤ b * h * w := Nat.mul_le_mul (Nat.mul_le_mul hb le_rfl) (by omega)
  have hconv : conv1x1Shape ic itc ⟨b, ic, h, w⟩ = some ⟨b, itc, h, w⟩ :=
    conv1x1Shape_pos ic itc ⟨b, ic, h, w⟩ rfl (by show 1 ≤ h; omega)
      (by show 1 ≤ w; omega)
  have hpool : maxPool2Shape ⟨b, itc, h, w⟩ = some ⟨b, itc, h / 2, w / 2⟩ :=
    maxPool2Shape_pos ⟨b, itc, h, w⟩ hh hw
  have hgv : viewInfer (Shape4.numel ⟨b, itc, h / 2, w / 2⟩) (b * itc) =
      some (h / 2 * (w / 2)) := by
    rw [show Shape4.numel ⟨b, itc, h / 2, w / 2⟩ =
      b * itc * (h / 2 * (w / 2)) from by simp [Shape4.numel]; ring]
    exact viewInfer_cancel _ _ hbi
  have hthv : viewInfer (Shape4.numel ⟨b, itc, h, w⟩) (b * itc) =
      some (h * w) := by
    rw [show Shape4.numel ⟨b, itc, h, w⟩ = b * itc * (h * w) from by
      simp [Shape4.numel]; ring]
    exact viewInfer_cancel _ _ hbi
  unfold nlForwardShape
  refine Option.bind_eq_some.mpr ⟨⟨b, itc, h, w⟩, hconv, ?_⟩
  refine Option.bind_eq_some.mpr ⟨⟨b, itc, h / 2, w / 2⟩, hpool, ?_⟩
  refine Option.bind_eq_some.mpr ⟨h / 2 * (w / 2), hgv, ?_⟩
  refine Option.bind_eq_some.mpr ⟨⟨b, itc, h, w⟩, hconv, ?_⟩
  refine Option.bind_eq_some.mpr ⟨h * w, hthv, ?_⟩
  refine Option.bind_eq_some.mpr ⟨⟨b, itc, h, w⟩, hconv, ?_⟩
  refine Option.bind_eq_some.mpr ⟨⟨b, itc, h / 2, w / 2⟩, hpool, ?_⟩
  refine Option.bind_eq_some.mpr ⟨h / 2 * (w / 2), hgv, ?_⟩
  refine Option.bind_eq_some.mpr
    ⟨⟨b, h * w, h / 2 * (w / 2)⟩, if_pos ⟨rfl, rfl⟩, ?_⟩
  refine Option.bind_eq_some.mpr ⟨⟨b, h * w, itc⟩, if_pos ⟨rfl, rfl⟩, ?_⟩
  refine Option.bind_eq_some.mpr ⟨⟨b, itc, h, w⟩,
    viewNumel_pos _ _ (by simp [Shape4.numel]; ring), ?_⟩
  refine Option.bind_eq_some.mpr ⟨⟨b, ic, h, w⟩,
    conv1x1Shape_pos itc ic ⟨b, itc, h, w⟩ rfl (by show 1 ≤ h; omega)
      (by show 1 ≤ w; omega), ?_⟩
  refine Option.bind_eq_some.mpr ⟨⟨b, ic, h, w⟩,
    show bnShape ic ⟨b, ic, h, w⟩ = some ⟨b, ic, h, w⟩ from
      if_pos ⟨rfl, hbhw⟩, ?_⟩
  exact if_pos rfl

/-- The embedded integer square root recovers the side length on perfect
squares, as Python's `int((k*k) ** 0.5)` does. -/
lemma intSqrt_sq (k : ℕ) : intSqrt (k * k) = k := by
  unfold intSqrt
  have hfil : (Finset.range (k * k + 1)).filter
      (fun m => (m + 1) * (m + 1) ≤ k * k) = Finset.range k := by
    ext m
    simp only [Finset.mem_filter, Finset.mem_range]
    constructor
    · rintro ⟨h1, h2⟩
      by_contra hmk
      push_neg at hmk
      have : (k + 1) * (k + 1) ≤ (m + 1) * (m + 1) :=
        Nat.mul_le_mul (by omega) (by omega)
      nlinarith
    · intro hmk
      have h1 : (m + 1) * (m + 1) ≤ k * k := Nat.mul_le_mul (by omega) (by omega)
      constructor
      · nlinarith
      · exact h1
  rw [hfil, Finset.card_range]

/-- The per-patch loop with a constant per-iteration result shape `t`
accumulates `n` copies of `t` along the last dimension. -/
lemma patchLoopShape_const (st : ℕ → Option Shape4) (t : Shape4) (n : ℕ)
    (hn : 1 ≤ n) (hst : ∀ i < n, st i = some t) :
    patchLoopShape st n = some (some ⟨t.b, t.c, t.h, n * t.w⟩) := by
  induction n with
  | zero => omega
  | succ n ih =>
    rcases Nat.eq_zero_or_pos n with h0 | hpos
    · subst h0
      show (patchLoopShape st 0).bind _ = _
      rw [show patchLoopShape st 0 = some none from rfl, Option.some_bind,
        hst 0 (by omega), Option.some_bind]
      show some (some t) = _
      rw [show 1 * t.w = t.w from by ring]
    · show (patchLoopShape st n).bind _ = _
      rw [ih hpos (fun i hi => hst i (by omega)), Option.some_bind,
        hst n (by omega), Option.some_bind]
      show (catLastShape ⟨t.b, t.c, t.h, n * t.w⟩ t).map some = _
      rw [catLastShape, if_pos ⟨rfl, rfl, rfl⟩]
      have harith : n * t.w + t.w = (n + 1) * t.w := by ring
      simp [harith]

/-- Helper: `NonLocalBlock_PatchWise.forward` on an 8x8 input with matching
channel count succeeds and returns the `(b, in_channel, 8, 8)` grid, for any
patch side `k` with `2 ≤ k ≤ 8` whose `l = ((8-k)/k+1)^2` patches tile the
grid (`k*k*l = 64`). -/
lemma patchWiseForwardShape_ok_aux (ic itc k l b : ℕ) (hb : 1 ≤ b)
    (hic : 1 ≤ ic) (hk2 : 2 ≤ k) (hk8 : k ≤ 8)
    (hl : ((8 - k) / k + 1) * ((8 - k) / k + 1) = l) (hl1 : 1 ≤ l)
    (hkl : k * k * l = 64) :
    patchWiseForwardShape ⟨ic, itc, k, nonLocalInit ic none true true⟩
      ⟨b, ic, 8, 8⟩ = some ⟨b, ic, 8, 8⟩ := by
  have hbic : b * ic ≠ 0 := by positivity
  have hbicl : b * ic * l ≠ 0 := by positivity
  have h18 : (1 : ℕ) ≤ 8 := by omega
  have hadp : adaptiveAvgPool2dShape 8 8 ⟨b, ic, 8, 8⟩ = some ⟨b, ic, 8, 8⟩ :=
    if_pos ⟨h18, h18, h18, h18⟩
  have hcu : 1 ≤ k ∧ k ≤ (Shape4.mk b ic 8 8).h ∧
      k ≤ (Shape4.mk b ic 8 8).w := ⟨by omega, hk8, hk8⟩
  have hunf : unfoldShape k ⟨b, ic, 8, 8⟩ = some ⟨b, ic * (k * k), l⟩ := by
    unfold unfoldShape
    rw [if_pos hcu]
    show (some ⟨b, ic * (k * k), ((8 - k) / k + 1) * ((8 - k) / k + 1)⟩ :
      Option Shape3) = some ⟨b, ic * (k * k), l⟩
    rw [hl]
  have hv1 : viewInfer (b * (ic * (k * k)) * l) (b * ic * l) = some (k * k) := by
    rw [show b * (ic * (k * k)) * l = b * ic * l * (k * k) from by ring]
    exact viewInfer_cancel _ _ hbicl
  have hitc : 1 ≤ (nonLocalInit ic none true true).interC := by
    show 1 ≤ if ic / 2 = 0 then 1 else ic / 2
    split <;> omega
  have hnl : nlForwardShape (nonLocalInit ic none true true) ⟨b, ic, k, k⟩ =
      some ⟨b, ic, k, k⟩ :=
    nlForwardShape_ok ic _ b k k hb hitc hk2 hk2
  have hstep : ∀ i < l,
      ((indexSelectLastShape ⟨b, k * k, ic, l⟩ i).bind fun sel =>
        (viewInfer sel.numel (sel.b * ic)).bind fun d3 =>
        (viewNumel sel.numel ⟨sel.b, ic, intSqrt d3, intSqrt d3⟩).bind
          fun div4 =>
        (nlForwardShape (nonLocalInit ic none true true) div4).bind fun att =>
        (viewInfer att.numel (att.b * ic * 1)).bind fun d4 =>
        (some ⟨att.b, d4, ic, 1⟩ : Option Shape4)) = some ⟨b, k * k, ic, 1⟩ := by
    intro i hi
    have hsel : indexSelectLastShape ⟨b, k * k, ic, l⟩ i =
        some ⟨b, k * k, ic, 1⟩ := by
      have hciw : i < (Shape4.mk b (k * k) ic l).w := hi
      unfold indexSelectLastShape
      rw [if_pos hciw]
    have hv2 : viewInfer (Shape4.numel ⟨b, k * k, ic, 1⟩) (b * ic) =
        some (k * k) := by
      rw [show Shape4.numel ⟨b, k * k, ic, 1⟩ = b * ic * (k * k) from by
        simp [Shape4.numel]; ring]
      exact viewInfer_cancel _ _ hbic
    have hv3 : viewNumel (Shape4.numel ⟨b, k * k, ic, 1⟩)
        ⟨b, ic, intSqrt (k * k), intSqrt (k * k)⟩ = some ⟨b, ic, k, k⟩ := by
      rw [intSqrt_sq]
      exact viewNumel_pos _ _ (by simp [Shape4.numel]; ring)
    have hv4 : viewInfer (Shape4.numel ⟨b, ic, k, k⟩) (b * ic * 1) =
        some (k * k) := by
      rw [show Shape4.numel ⟨b, ic, k, k⟩ = b * ic * 1 * (k * k) from by
        simp [Shape4.numel]; ring]
      exact viewInfer_cancel _ _ (by positivity)
    refine Option.bind_eq_some.mpr ⟨⟨b, k * k, ic, 1⟩, hsel, ?_⟩
    refine Option.bind_eq_some.mpr ⟨k * k, hv2, ?_⟩
    refine Option.bind_eq_some.mpr ⟨⟨b, ic, k, k⟩, hv3, ?_⟩
    refine Option.bind_eq_some.mpr ⟨⟨b, ic, k, k⟩, hnl, ?_⟩
    exact Option.bind_eq_some.mpr ⟨k * k, hv4, rfl⟩
  have hfin : viewNumel (Shape4.numel ⟨b, k * k, ic, l * 1⟩) ⟨b, ic, 8, 8⟩ =
      some ⟨b, ic, 8, 8⟩ := by
    refine viewNumel_pos _ _ ?_
    calc Shape4.numel ⟨b, k * k, ic, l * 1⟩ = b * ic * (k * k * l) := by
          simp [Shape4.numel]; ring
    _ = b * ic * 64 := by rw [hkl]
    _ = Shape4.numel ⟨b, ic, 8, 8⟩ := by simp [Shape4.numel]; ring
  unfold patchWiseForwardShape
  refine Option.bind_eq_some.mpr ⟨⟨b, ic, 8, 8⟩, hadp, ?_⟩
  refine Option.bind_eq_some.mpr ⟨⟨b, ic * (k * k), l⟩, hunf, ?_⟩
  refine Option.bind_eq_some.mpr ⟨k * k, hv1, ?_⟩
  refine Option.bind_eq_some.mpr ⟨some ⟨b, k * k, ic, l * 1⟩,
    patchLoopShape_const _ ⟨b, k * k, ic, 1⟩ l hl1 hstep, ?_⟩
  exact hfin

/-! ## Claims about NonLocalBlock_PatchWise and GCM_up (shape level) -/

/-- C8 counterexample: with `patch_factor = 8` the patches are 1x1, and the
shared sub-sampled `NonLocalBlock` cannot max-pool a 1x1 map with a 2x2
window, so `NonLocalBlock_PatchWise.forward` fails on an 8x8 input (here
`(1, 4, 8, 8)` with `in_channel = 4`) instead of succeeding as the claim
states for every patch_factor in {1, 2, 4, 8}. -/
theorem claim_C8_counterexample :
    patchWiseForwardShape (patchWiseInit 4 4 8) ⟨1, 4, 8, 8⟩ = none := by
  decide

/-- C8 (amended): for every patch_factor in {1, 2, 4} (not 8) and every
valid input — batch at least 1, spatial extent exactly the 8x8 grid the
final view hard-codes, channel count equal to the configured
`in_channel` — `NonLocalBlock_PatchWise.forward` succeeds and its
reassembled output grid is 8x8 with the channel count preserved.  With
`patch_factor = 8` the forward fails (see the counterexample). -/
theorem claim_C8 (pf b ic itc : ℕ) (hpf : pf = 1 ∨ pf = 2 ∨ pf = 4)
    (hb : 1 ≤ b) (hic : 1 ≤ ic) :
    patchWiseForwardShape (patchWiseInit ic itc pf) ⟨b, ic, 8, 8⟩ =
      some ⟨b, ic, 8, 8⟩ := by
  rcases hpf with rfl | rfl | rfl
  · exact patchWiseForwardShape_ok_aux ic itc 8 1 b hb hic (by omega)
      (by omega) (by decide) (by omega) (by decide)
  · exact patchWiseForwardShape_ok_aux ic itc 4 4 b hb hic (by omega)
      (by omega) (by decide) (by omega) (by decide)
  · exact patchWiseForwardShape_ok_aux ic itc 2 16 b hb hic (by omega)
      (by omega) (by decide) (by omega) (by decide)

/-- C8 witness: at patch_factor 2, batch 1, 4 channels, the 8x8 input
comes back as an 8x8 grid with 4 channels. -/
theorem claim_C8_witness :
    patchWiseForwardShape (patchWiseInit 4 7 2) ⟨1, 4, 8, 8⟩ =
      some ⟨1, 4, 8, 8⟩ :=
  claim_C8 2 1 4 7 (Or.inr (Or.inl rfl)) (by omega) (by omega)

/-- C9: for every input of shape `(B, 256, H, W)` with arbitrary positive
spatial resolution `H` x `W`, `GCM_up.forward` output has shape
`(B, out_channels, H, W)`: the spatial extent round-trips through the 8x8
adaptive pooling and the final adaptive resize back to `(H, W)`, and the
channel count equals the configured `out_channels`.  (The input channel
count must be the fixed constant 256 that `GCM_up` hard-codes in its third
path `NonLocalBlock(256, 64)` and its `SELayer(3*256)` / `Conv2d(3*256, _)`
fusion, as the spec's section 4.6 records.) -/
theorem claim_C9 (b h w outC : ℕ) (hb : 1 ≤ b) (hh : 1 ≤ h) (hw : 1 ≤ w) :
    gcmUpForwardShape (gcmUpInit 256 outC) ⟨b, 256, h, w⟩ =
      some ⟨b, outC, h, w⟩ := by
  have h18 : (1 : ℕ) ≤ 8 := by omega
  have hadp : adaptiveAvgPool2dShape 8 8 ⟨b, 256, h, w⟩ =
      some ⟨b, 256, 8, 8⟩ :=
    if_pos ⟨h18, h18, hh, hw⟩
  have hp1 : patchWiseForwardShape (patchWiseInit 256 outC 2) ⟨b, 256, 8, 8⟩ =
      some ⟨b, 256, 8, 8⟩ :=
    patchWiseForwardShape_ok_aux 256 outC 4 4 b hb (by omega) (by omega)
      (by omega) (by decide) (by omega) (by decide)
  have hp2 : patchWiseForwardShape (patchWiseInit 256 outC 4) ⟨b, 256, 8, 8⟩ =
      some ⟨b, 256, 8, 8⟩ :=
    patchWiseForwardShape_ok_aux 256 outC 2 16 b hb (by omega) (by omega)
      (by omega) (by decide) (by omega) (by decide)
  have hp3 : nlForwardShape (nonLocalInit 256 (some 64) true true)
      ⟨b, 256, 8, 8⟩ = some ⟨b, 256, 8, 8⟩ :=
    nlForwardShape_ok 256 64 b 8 8 hb (by omega) (by omega) (by omega)
  have hcat : cat3ChShape ⟨b, 256, 8, 8⟩ ⟨b, 256, 8, 8⟩ ⟨b, 256, 8, 8⟩ =
      some ⟨b, 256 + 256 + 256, 8, 8⟩ :=
    if_pos ⟨rfl, rfl, rfl, rfl, rfl, rfl⟩
  have hse : seForwardShape (seInit (3 * 256) 16) ⟨b, 256 + 256 + 256, 8, 8⟩ =
      some ⟨b, 256 + 256 + 256, 8, 8⟩ :=
    seForwardShape_ok (seInit (3 * 256) 16) ⟨b, 256 + 256 + 256, 8, 8⟩
      (by show 256 + 256 + 256 = 3 * 256; omega) h18 h18
  have hconv : conv1x1Shape (3 * 256) outC ⟨b, 256 + 256 + 256, 8, 8⟩ =
      some ⟨b, outC, 8, 8⟩ :=
    conv1x1Shape_pos (3 * 256) outC ⟨b, 256 + 256 + 256, 8, 8⟩
      (by show 256 + 256 + 256 = 3 * 256; omega) h18 h18
  have hpost : adaptiveAvgPool2dShape h w ⟨b, outC, 8, 8⟩ =
      some ⟨b, outC, h, w⟩ :=
    if_pos ⟨hh, hw, h18, h18⟩
  unfold gcmUpForwardShape gcmUpInit
  refine Option.bind_eq_some.mpr ⟨⟨b, 256, 8, 8⟩, hadp, ?_⟩
  refine Option.bind_eq_some.mpr ⟨⟨b, 256, 8, 8⟩, hp1, ?_⟩
  refine Option.bind_eq_some.mpr ⟨⟨b, 256, 8, 8⟩, hp2, ?_⟩
  refine Option.bind_eq_some.mpr ⟨⟨b, 256, 8, 8⟩, hp3, ?_⟩
  refine Option.bind_eq_some.mpr ⟨⟨b, 256 + 256 + 256, 8, 8⟩, hcat, ?_⟩
  refine Option.bind_eq_some.mpr ⟨⟨b, 256 + 256 + 256, 8, 8⟩, hse, ?_⟩
  refine Option.bind_eq_some.mpr ⟨⟨b, outC, 8, 8⟩, hconv, ?_⟩
  exact hpost

/-- C9 witness: a `(1, 256, 3, 5)` input to `GCM_up(256, 7)` yields a
`(1, 7, 3, 5)` output. -/
theorem claim_C9_witness :
    gcmUpForwardShape (gcmUpInit 256 7) ⟨1, 256, 3, 5⟩ = some ⟨1, 7, 3, 5⟩ :=
  claim_C9 1 3 5 7 (by omega) (by omega) (by omega)
